import Mathlib

/-!
Verification of the `hashrevise` change-detection library.

The library (src/lib.rs) provides:
- `RevisionHash`: a 64-bit content fingerprint (modelled as a `Nat` < 2^64);
- `RevisionHasher`: a streaming hasher wrapping `seahash::SeaHasher`;
- `Revisable` implementations for references, tuples of arity 1-3,
  slices `[T]` and `HashMap<K, T>`;
- `Revised<T>`: a wrapper caching the fingerprint of its value, cleared
  on every mutable access;
- `RevisedProperty<T>`: a memoized result of a pure function of 1-3
  revisable arguments, keyed by the combined argument fingerprint.

Machine integers are embedded as `Nat` with explicit reduction modulo
`2 ^ 64` where wrapping matters.  Interior mutability (the `Cell` holding
the cached hash) and `&mut` access are embedded as explicit state passing.
Where an operation of the source may invoke a caller-supplied function
(`T::get_revision` or the refreshed function `f`), the embedded operation
additionally returns the number of such invocations, so that the
"computed at most once" claims can be stated.
-/

namespace Hashrevise

/-- 2^64, the modulus of all `u64` arithmetic in the library. -/
def U64 : Nat := 2 ^ 64

/-- The multiplication constant of SeaHash's `diffuse` function. -/
def seaP : Nat := 0x6eed0e9da4d94a4f

/-- The multiplicative inverse of `seaP` modulo 2^64 (used to show that
`diffuse` is injective). -/
def seaPinv : Nat := 3418993122468531375

/-- First half of SeaHash `diffuse`: wrapping multiplication by `seaP`.
Model of the `seahash` dependency (the crate is not part of this
repository; the model follows the published SeaHash algorithm and
reproduces the crate's documented test vector, see
`seaHasher_reference_vector` below). -/
def mulP (x : Nat) : Nat := x * seaP % U64

/-- The xor-shift step of SeaHash `diffuse`:
`x ^= (x >> 32) >> (x >> 60)`.  Model of the `seahash` dependency. -/
def xshift (x : Nat) : Nat := x ^^^ ((x >>> 32) >>> (x >>> 60))

/-- SeaHash's `diffuse` bijection:
multiply by `seaP`, xor-shift, multiply by `seaP` (all wrapping).
Model of the `seahash` dependency. -/
def diffuse (x : Nat) : Nat := mulP (xshift (mulP x))

/-- State of a streaming `seahash::SeaHasher`: four lanes `a b c d`,
the count `written` of bytes already pushed in whole 8-byte words, and
the buffer `tl` (the crate's `tail`/`ntail`) of at most 7 pending bytes.
Model of the `seahash` dependency. -/
structure SeaHasher where
  a : Nat
  b : Nat
  c : Nat
  d : Nat
  written : Nat
  tl : List Nat
  deriving DecidableEq

/-- `SeaHasher::new()` / `Default`: the crate's fixed default seeds. -/
def SeaHasher.new : SeaHasher :=
  ⟨0x16f11fe89b0d677c, 0xb480a793d8e6c86c, 0x6fe2e5aaf078ebc9, 0x14f994a4c5259381, 0, []⟩

/-- Little-endian byte decomposition of a `u64` (8 bytes, each < 256). -/
def leBytes64 (n : Nat) : List Nat :=
  [n % 256, n / 2 ^ 8 % 256, n / 2 ^ 16 % 256, n / 2 ^ 24 % 256,
   n / 2 ^ 32 % 256, n / 2 ^ 40 % 256, n / 2 ^ 48 % 256, n / 2 ^ 56 % 256]

/-- Read a little-endian list of bytes (each < 256) back as one integer. -/
def u64FromLEBytes (bs : List Nat) : Nat :=
  bs.foldr (fun byte acc => byte + 256 * acc) 0

/-- SeaHasher's `push`: fold one 8-byte word into the lanes
(`d' = diffuse(a ^ x)` with lane rotation) and count 8 written bytes. -/
def SeaHasher.push (s : SeaHasher) (x : Nat) : SeaHasher :=
  ⟨s.b, s.c, s.d, diffuse (s.a ^^^ x), (s.written + 8) % U64, s.tl⟩

/-- Append one byte (< 256) to the buffer; when 8 bytes have
accumulated, push them as one little-endian word. -/
def SeaHasher.writeByte (s : SeaHasher) (byte : Nat) : SeaHasher :=
  if (s.tl ++ [byte]).length = 8 then
    SeaHasher.push ⟨s.a, s.b, s.c, s.d, s.written, []⟩ (u64FromLEBytes (s.tl ++ [byte]))
  else
    ⟨s.a, s.b, s.c, s.d, s.written, s.tl ++ [byte]⟩

/-- `Hasher::write(bytes)` on `seahash::SeaHasher`: stream the bytes
through the buffer. -/
def SeaHasher.write (s : SeaHasher) (bytes : List Nat) : SeaHasher :=
  bytes.foldl SeaHasher.writeByte s

/-- `Hasher::write_u8` (one little-endian byte). -/
def SeaHasher.write_u8 (s : SeaHasher) (n : Nat) : SeaHasher :=
  s.write [n % 256]

/-- `Hasher::write_u64` (eight little-endian bytes). -/
def SeaHasher.write_u64 (s : SeaHasher) (n : Nat) : SeaHasher :=
  s.write (leBytes64 n)

/-- `Hasher::write_usize`; `usize` is 64-bit here, identical to
`write_u64`. -/
def SeaHasher.write_usize (s : SeaHasher) (n : Nat) : SeaHasher :=
  s.write (leBytes64 n)

/-- `Hasher::finish` of `seahash::SeaHasher`: fold a non-empty buffer
into lane `a`, then diffuse the xor of the lanes and the total number of
written bytes. -/
def SeaHasher.finish (s : SeaHasher) : Nat :=
  (if s.tl.length = 0 then
    diffuse ((((s.a ^^^ s.b) ^^^ s.c) ^^^ s.d) ^^^ ((s.written + s.tl.length) % U64))
  else
    diffuse ((((diffuse (s.a ^^^ u64FromLEBytes s.tl) ^^^ s.b) ^^^ s.c) ^^^ s.d) ^^^
      ((s.written + s.tl.length) % U64)))

/-- `RevisionHasher` (src/lib.rs:12): wraps a `seahash::SeaHasher`. -/
structure RevisionHasher where
  hasher : SeaHasher
  deriving DecidableEq

/-- `RevisionHasher::new` (src/lib.rs:18). -/
def RevisionHasher.new : RevisionHasher :=
  ⟨SeaHasher.new⟩

/-- `RevisionHasher::write_revision` (src/lib.rs:31): hash the 64-bit
value of another object's `RevisionHash`. -/
def RevisionHasher.write_revision (h : RevisionHasher) (r : Nat) : RevisionHasher :=
  ⟨h.hasher.write_u64 r⟩

/-- `Hasher::write_u8` on `RevisionHasher`: forwarded to the inner
seahash stream (src/lib.rs:47). -/
def RevisionHasher.write_u8 (h : RevisionHasher) (n : Nat) : RevisionHasher :=
  ⟨h.hasher.write_u8 n⟩

/-- `Hasher::write_usize` on `RevisionHasher`: forwarded to the inner
seahash stream (src/lib.rs:47). -/
def RevisionHasher.write_usize (h : RevisionHasher) (n : Nat) : RevisionHasher :=
  ⟨h.hasher.write_usize n⟩

/-- `Hasher::finish` on `RevisionHasher` (src/lib.rs:43). -/
def RevisionHasher.finish (h : RevisionHasher) : Nat :=
  h.hasher.finish

/-- `RevisionHasher::into_revision` (src/lib.rs:37). -/
def RevisionHasher.into_revision (h : RevisionHasher) : Nat :=
  h.hasher.finish

/-- `impl Revisable for &T` (src/lib.rs:83): delegation to the wrapped
value.  A `Revisable` implementation is embedded as its pure
`get_revision` function `rev : α → Nat`. -/
def refGetRevision {α : Type} (rev : α → Nat) (x : α) : Nat :=
  rev x

/-- `impl Revisable for (T,)` (src/lib.rs:93): the 1-tuple's revision is
`self.0.get_revision()`, with no hasher involved. -/
def tuple1GetRevision {α : Type} (rev0 : α → Nat) (t : α) : Nat :=
  rev0 t

/-- `impl Revisable for (T0, T1)` (src/lib.rs:103): write both component
revisions into a fresh hasher, in order, and finish. -/
def tuple2GetRevision {α β : Type} (rev0 : α → Nat) (rev1 : β → Nat) (t : α × β) : Nat :=
  ((RevisionHasher.new.write_revision (rev0 t.1)).write_revision (rev1 t.2)).finish

/-- `impl Revisable for (T0, T1, T2)` (src/lib.rs:117). -/
def tuple3GetRevision {α β γ : Type} (rev0 : α → Nat) (rev1 : β → Nat) (rev2 : γ → Nat)
    (t : α × β × γ) : Nat :=
  (((RevisionHasher.new.write_revision (rev0 t.1)).write_revision
    (rev1 t.2.1)).write_revision (rev2 t.2.2)).finish

/-- `impl Revisable for [T]` (src/lib.rs:197): hash the length first,
then each item's revision in order. -/
def sliceGetRevision {α : Type} (rev : α → Nat) (items : List α) : Nat :=
  (items.foldl (fun h item => h.write_revision (rev item))
    (RevisionHasher.new.write_usize items.length)).finish

/-- The per-entry sub-hash of `impl Revisable for HashMap<K, T>`
(src/lib.rs:226-233): marker byte 0x1, key revision, marker byte 0x2,
value revision, finish. -/
def mapEntryRevision (kr vr : Nat) : Nat :=
  ((((RevisionHasher.new.write_u8 1).write_revision kr).write_u8 2).write_revision vr).finish

/-- `impl Revisable for HashMap<K, T>` (src/lib.rs:217): xor of the
per-entry sub-hashes (iteration-order independent), then a fresh
seahash over the entry count and that combined value.  The map is
embedded as its entry list in iteration order. -/
def hashMapGetRevision {κ α : Type} (rev_k : κ → Nat) (rev_v : α → Nat)
    (entries : List (κ × α)) : Nat :=
  ((SeaHasher.new.write_usize entries.length).write_u64
    (entries.foldl (fun acc e => acc ^^^ mapEntryRevision (rev_k e.1) (rev_v e.2)) 0)).finish

/-- `Revised<T>` (src/lib.rs:140): the stored object and the optional
cached revision hash (`Cell<Option<RevisionHash>>`). -/
structure Revised (α : Type) where
  value : α
  revision : Option Nat

/-- `Revised::new` (src/lib.rs:150): cache starts empty. -/
def Revised.new {α : Type} (value : α) : Revised α :=
  ⟨value, none⟩

/-- `Revised::get_revision` (src/lib.rs:160): return the cached hash if
present, otherwise compute, cache and return it.  Returns
(result, post-state, number of calls to the wrapped value's
`get_revision`). -/
def Revised.get_revision {α : Type} (rev : α → Nat) (s : Revised α) : Nat × Revised α × Nat :=
  match s.revision with
  | some v => (v, s, 0)
  | none => (rev s.value, ⟨s.value, some (rev s.value)⟩, 1)

/-- `Deref for Revised<T>` (src/lib.rs:176): plain read access, no cache
effect. -/
def Revised.deref {α : Type} (s : Revised α) : α × Revised α :=
  (s.value, s)

/-- `DerefMut for Revised<T>` (src/lib.rs:183): unconditionally clear
the cache, then hand out the mutable reference.  The returned state is
the wrapper as the borrow begins. -/
def Revised.deref_mut {α : Type} (s : Revised α) : Revised α :=
  ⟨s.value, none⟩

/-- A mutation performed through the `&mut T` obtained from
`deref_mut`: replaces the stored value (and only the value). -/
def Revised.storeThroughMut {α : Type} (s : Revised α) (a : α) : Revised α :=
  ⟨a, s.revision⟩

/-- `#[derive(Clone)] for Revised<T>` (src/lib.rs:139): clone the value
with `T::clone` and copy the cache cell's contents. -/
def Revised.clone {α : Type} (cloneValue : α → α) (s : Revised α) : Revised α :=
  ⟨cloneValue s.value, s.revision⟩

/-- The cache invariant of `Revised<T>`: a present cached hash equals
what a fresh `get_revision` of the current value would produce. -/
def Revised.Inv {α : Type} (rev : α → Nat) (s : Revised α) : Prop :=
  ∀ h, s.revision = some h → h = rev s.value

/-- `RevisedProperty<T>` (src/lib.rs:257): optional revision of the
arguments of the cached value, and the optional cached value. -/
structure RevisedProperty (τ : Type) where
  revision : Option Nat
  value : Option τ

/-- `RevisedProperty::new` (src/lib.rs:267): empty cache. -/
def RevisedProperty.new {τ : Type} : RevisedProperty τ :=
  ⟨none, none⟩

/-- `RevisedProperty::get_cached` (src/lib.rs:277). -/
def RevisedProperty.get_cached {τ : Type} (s : RevisedProperty τ) : Option τ :=
  s.value

/-- `RevisedProperty::refresh1` (src/lib.rs:286): recompute and store
`f arg0` unless the stored revision already equals `arg0`'s revision.
Returns (post-state, number of invocations of `f`). -/
def RevisedProperty.refresh1 {τ α : Type} (s : RevisedProperty τ) (f : α → τ)
    (rev0 : α → Nat) (arg0 : α) : RevisedProperty τ × Nat :=
  if s.revision ≠ some (rev0 arg0) then
    (⟨some (rev0 arg0), some (f arg0)⟩, 1)
  else
    (s, 0)

/-- `RevisedProperty::refresh2` (src/lib.rs:303): the key is the
revision of the reference tuple `(&arg0, &arg1)`. -/
def RevisedProperty.refresh2 {τ α β : Type} (s : RevisedProperty τ) (f : α → β → τ)
    (rev0 : α → Nat) (rev1 : β → Nat) (arg0 : α) (arg1 : β) : RevisedProperty τ × Nat :=
  if s.revision ≠ some (tuple2GetRevision (refGetRevision rev0) (refGetRevision rev1) (arg0, arg1)) then
    (⟨some (tuple2GetRevision (refGetRevision rev0) (refGetRevision rev1) (arg0, arg1)),
      some (f arg0 arg1)⟩, 1)
  else
    (s, 0)

/-- `RevisedProperty::refresh3` (src/lib.rs:321). -/
def RevisedProperty.refresh3 {τ α β γ : Type} (s : RevisedProperty τ) (f : α → β → γ → τ)
    (rev0 : α → Nat) (rev1 : β → Nat) (rev2 : γ → Nat) (arg0 : α) (arg1 : β) (arg2 : γ) :
    RevisedProperty τ × Nat :=
  if s.revision ≠ some (tuple3GetRevision (refGetRevision rev0) (refGetRevision rev1)
      (refGetRevision rev2) (arg0, arg1, arg2)) then
    (⟨some (tuple3GetRevision (refGetRevision rev0) (refGetRevision rev1)
      (refGetRevision rev2) (arg0, arg1, arg2)), some (f arg0 arg1 arg2)⟩, 1)
  else
    (s, 0)

/-- The coupling invariant of `RevisedProperty<T>`: the cached value is
present exactly when the stored argument revision is present. -/
def RevisedProperty.Inv {τ : Type} (s : RevisedProperty τ) : Prop :=
  s.revision.isSome ↔ s.value.isSome

/-- Modelled from the spec: the fixed-tuple rule of section 4.2,
"write each component's fingerprint in positional order into one
accumulator, finalize", for any arity.  Compared below against the
tuple implementations of the source. -/
def specTupleRuleRevision (rs : List Nat) : Nat :=
  (rs.foldl RevisionHasher.write_revision RevisionHasher.new).finish

/-- The revision of a one-element slice, as a function of the element's
revision hash (helper for the slice theorems). -/
def sliceOneRevision (r : Nat) : Nat :=
  ((RevisionHasher.new.write_usize 1).write_revision r).finish

-- Theorems

/-- The SeaHasher model reproduces the seahash crate's documented test
vector: hashing the bytes of "to be or not to be" (which exercises the
unaligned-buffer path) gives 1988685042348123509. -/
theorem seaHasher_reference_vector :
    (SeaHasher.new.write [116, 111, 32, 98, 101, 32, 111, 114, 32, 110, 111,
      116, 32, 116, 111, 32, 98, 101]).finish = 1988685042348123509 := by
  decide

/-- C1: for every wrapped value type whose `get_revision` is embedded as
the pure function `rev`, the `Revised` cache invariant — a present
cached fingerprint equals a fresh `rev` of the current value — holds
after construction and is preserved by `get_revision`, `deref`, and
`deref_mut` followed by any mutation through the borrow. -/
theorem revised_cache_invariant {α : Type} (rev : α → Nat) (v : α) (s : Revised α)
    (hs : Revised.Inv rev s) (a : α) :
    Revised.Inv rev (Revised.new v) ∧
    Revised.Inv rev (Revised.get_revision rev s).2.1 ∧
    Revised.Inv rev (Revised.deref s).2 ∧
    Revised.Inv rev (Revised.storeThroughMut (Revised.deref_mut s) a) := by
  refine ⟨?_, ?_, hs, ?_⟩
  · intro h hh
    exact absurd hh (by simp [Revised.new])
  · obtain ⟨val, vrev⟩ := s
    cases vrev with
    | some v' => exact hs
    | none =>
      intro h hh
      simp only [Revised.get_revision, Option.some.injEq] at hh
      exact hh.symm
  · intro h hh
    exact absurd hh (by simp [Revised.deref_mut, Revised.storeThroughMut])

/-- Witness for C1 at a concrete instance. -/
theorem revised_cache_invariant_witness :
    Revised.Inv (fun n => n + 1) (Revised.new 7) ∧
    Revised.Inv (fun n => n + 1) (Revised.get_revision (fun n => n + 1) (Revised.new 3)).2.1 ∧
    Revised.Inv (fun n => n + 1) (Revised.deref (Revised.new 3)).2 ∧
    Revised.Inv (fun n => n + 1)
      (Revised.storeThroughMut (Revised.deref_mut (Revised.new 3)) 5) :=
  revised_cache_invariant (fun n => n + 1) 7 (Revised.new 3)
    (fun h hh => absurd hh (by simp [Revised.new])) 5

/-- C3: `deref_mut` unconditionally clears the cached fingerprint slot
before granting the mutable reference, so the next `get_revision`
recomputes the value's fingerprint (exactly one call to `rev`) even if
the content was not changed. -/
theorem deref_mut_clears_cache {α : Type} (rev : α → Nat) (s : Revised α) :
    (Revised.deref_mut s).revision = none ∧
    (Revised.get_revision rev (Revised.deref_mut s)).2.2 = 1 ∧
    (Revised.get_revision rev (Revised.deref_mut s)).1 = rev s.value :=
  ⟨rfl, rfl, rfl⟩

/-- C6: two consecutive `get_revision` calls with no intervening
`deref_mut` return equal fingerprints, and the wrapped value's own
`get_revision` is invoked at most once across the two calls. -/
theorem consecutive_get_revision {α : Type} (rev : α → Nat) (s : Revised α) :
    (Revised.get_revision rev (Revised.get_revision rev s).2.1).1 =
      (Revised.get_revision rev s).1 ∧
    (Revised.get_revision rev s).2.2 +
      (Revised.get_revision rev (Revised.get_revision rev s).2.1).2.2 ≤ 1 := by
  cases hrev : s.revision <;> simp [Revised.get_revision, hrev]

/-- C10: the derived `Clone` of `Revised<T>` clones the wrapped value
and copies the optional cached fingerprint unchanged; cloning is not a
cache-invalidating event. -/
theorem clone_preserves_cache {α : Type} (cloneValue : α → α) (s : Revised α) :
    (Revised.clone cloneValue s).revision = s.revision ∧
    (Revised.clone cloneValue s).value = cloneValue s.value :=
  ⟨rfl, rfl⟩

/-- C9: fingerprinting a tuple of references equals fingerprinting the
tuple of the values themselves (the reference implementation delegates
unchanged), and consequently the revision key stored by `refresh2` and
`refresh3` on a fresh cell is the fixed-tuple fingerprint of the
argument values. -/
theorem ref_tuple_revision_transparent {τ α β γ : Type}
    (rev0 : α → Nat) (rev1 : β → Nat) (rev2 : γ → Nat) (a : α) (b : β) (c : γ)
    (f2 : α → β → τ) (f3 : α → β → γ → τ) :
    tuple2GetRevision (refGetRevision rev0) (refGetRevision rev1) (a, b) =
      tuple2GetRevision rev0 rev1 (a, b) ∧
    tuple3GetRevision (refGetRevision rev0) (refGetRevision rev1) (refGetRevision rev2)
      (a, b, c) = tuple3GetRevision rev0 rev1 rev2 (a, b, c) ∧
    (RevisedProperty.refresh2 RevisedProperty.new f2 rev0 rev1 a b).1.revision =
      some (tuple2GetRevision rev0 rev1 (a, b)) ∧
    (RevisedProperty.refresh3 RevisedProperty.new f3 rev0 rev1 rev2 a b c).1.revision =
      some (tuple3GetRevision rev0 rev1 rev2 (a, b, c)) :=
  ⟨rfl, rfl, rfl, rfl⟩

/-- C5 counterexample: the claim "for every arity in 1-3 the tuple
algorithm is: new hasher, write component fingerprints, finish" fails
for arity 1 — the code delegates to the component's `get_revision`
directly, while the accumulator rule hashes it. -/
theorem tuple1_accumulator_rule_fails :
    tuple1GetRevision (fun r => r) 0 ≠ specTupleRuleRevision [0] := by
  decide

/-- C5 amended: tuples of arity 2 and 3 follow the accumulator rule
(write component fingerprints in positional order into a fresh hasher,
finish), while the arity-1 tuple returns its component's fingerprint
unchanged, without any accumulator. -/
theorem tuple_accumulator_rule_amended (r0 r1 r2 : Nat) :
    tuple1GetRevision (fun r => r) r0 = r0 ∧
    tuple2GetRevision (fun r => r) (fun r => r) (r0, r1) = specTupleRuleRevision [r0, r1] ∧
    tuple3GetRevision (fun r => r) (fun r => r) (fun r => r) (r0, r1, r2) =
      specTupleRuleRevision [r0, r1, r2] :=
  ⟨rfl, rfl, rfl⟩

/-- C2: every refresh call is either a pure cache hit (the combined
argument fingerprint equals the stored one: `f` is not invoked and the
cell is unchanged) or a miss (`f` is invoked once and the cell stores
the new fingerprint and result); hence two refresh calls with arguments
of unchanged fingerprint invoke `f` at most once in total.  Stated for
all three arities. -/
theorem refresh_cache_hit_miss {τ α β γ : Type} (s : RevisedProperty τ)
    (f1 : α → τ) (f2 : α → β → τ) (f3 : α → β → γ → τ)
    (rev0 : α → Nat) (rev1 : β → Nat) (rev2 : γ → Nat) (a0 : α) (a1 : β) (a2 : γ) :
    (s.revision = some (rev0 a0) →
      RevisedProperty.refresh1 s f1 rev0 a0 = (s, 0)) ∧
    (s.revision ≠ some (rev0 a0) →
      RevisedProperty.refresh1 s f1 rev0 a0 = (⟨some (rev0 a0), some (f1 a0)⟩, 1)) ∧
    (s.revision = some (tuple2GetRevision (refGetRevision rev0) (refGetRevision rev1) (a0, a1)) →
      RevisedProperty.refresh2 s f2 rev0 rev1 a0 a1 = (s, 0)) ∧
    (s.revision ≠ some (tuple2GetRevision (refGetRevision rev0) (refGetRevision rev1) (a0, a1)) →
      RevisedProperty.refresh2 s f2 rev0 rev1 a0 a1 =
        (⟨some (tuple2GetRevision (refGetRevision rev0) (refGetRevision rev1) (a0, a1)),
          some (f2 a0 a1)⟩, 1)) ∧
    (s.revision = some (tuple3GetRevision (refGetRevision rev0) (refGetRevision rev1)
        (refGetRevision rev2) (a0, a1, a2)) →
      RevisedProperty.refresh3 s f3 rev0 rev1 rev2 a0 a1 a2 = (s, 0)) ∧
    (s.revision ≠ some (tuple3GetRevision (refGetRevision rev0) (refGetRevision rev1)
        (refGetRevision rev2) (a0, a1, a2)) →
      RevisedProperty.refresh3 s f3 rev0 rev1 rev2 a0 a1 a2 =
        (⟨some (tuple3GetRevision (refGetRevision rev0) (refGetRevision rev1)
          (refGetRevision rev2) (a0, a1, a2)), some (f3 a0 a1 a2)⟩, 1)) ∧
    (RevisedProperty.refresh1 s f1 rev0 a0).2 +
      (RevisedProperty.refresh1 (RevisedProperty.refresh1 s f1 rev0 a0).1 f1 rev0 a0).2 ≤ 1 ∧
    (RevisedProperty.refresh2 s f2 rev0 rev1 a0 a1).2 +
      (RevisedProperty.refresh2 (RevisedProperty.refresh2 s f2 rev0 rev1 a0 a1).1
        f2 rev0 rev1 a0 a1).2 ≤ 1 ∧
    (RevisedProperty.refresh3 s f3 rev0 rev1 rev2 a0 a1 a2).2 +
      (RevisedProperty.refresh3 (RevisedProperty.refresh3 s f3 rev0 rev1 rev2 a0 a1 a2).1
        f3 rev0 rev1 rev2 a0 a1 a2).2 ≤ 1 := by
  refine ⟨?_, ?_, ?_, ?_, ?_, ?_, ?_, ?_, ?_⟩ <;>
    first
    | (intro h; simp [RevisedProperty.refresh1, RevisedProperty.refresh2,
        RevisedProperty.refresh3, h])
    | (by_cases h : s.revision = some (rev0 a0) <;>
        simp [RevisedProperty.refresh1, h])
    | (by_cases h : s.revision =
          some (tuple2GetRevision (refGetRevision rev0) (refGetRevision rev1) (a0, a1)) <;>
        simp [RevisedProperty.refresh2, h])
    | (by_cases h : s.revision =
          some (tuple3GetRevision (refGetRevision rev0) (refGetRevision rev1)
            (refGetRevision rev2) (a0, a1, a2)) <;>
        simp [RevisedProperty.refresh3, h])

/-- Witness for C2 at a concrete instance: a miss followed by a hit on
a fresh one-argument cell. -/
theorem refresh_cache_hit_miss_witness :
    RevisedProperty.refresh1 (RevisedProperty.new : RevisedProperty Nat)
      (fun n => n + 1) (fun n => n) 4 = (⟨some 4, some 5⟩, 1) ∧
    (RevisedProperty.refresh1 (RevisedProperty.new : RevisedProperty Nat)
        (fun n => n + 1) (fun n => n) 4).2 +
      (RevisedProperty.refresh1 (RevisedProperty.refresh1
          (RevisedProperty.new : RevisedProperty Nat) (fun n => n + 1) (fun n => n) 4).1
        (fun n => n + 1) (fun n => n) 4).2 ≤ 1 := by
  have h := refresh_cache_hit_miss (RevisedProperty.new : RevisedProperty Nat)
    (fun n => n + 1) (fun a b => a + b) (fun a b c => a + b + c)
    (fun n : Nat => n) (fun n : Nat => n) (fun n : Nat => n) 4 4 4
  exact ⟨h.2.1 (by simp [RevisedProperty.new]), h.2.2.2.2.2.2.1⟩

/-- C7: the cached result of a `RevisedProperty` is present exactly when
the stored argument fingerprint is present: both are absent on a fresh
cell, and every refresh either leaves the cell unchanged or sets both
fields at once. -/
theorem property_revision_value_coupled {τ α β γ : Type} (s : RevisedProperty τ)
    (hs : RevisedProperty.Inv s)
    (f1 : α → τ) (f2 : α → β → τ) (f3 : α → β → γ → τ)
    (rev0 : α → Nat) (rev1 : β → Nat) (rev2 : γ → Nat) (a0 : α) (a1 : β) (a2 : γ) :
    RevisedProperty.Inv (RevisedProperty.new : RevisedProperty τ) ∧
    RevisedProperty.Inv (RevisedProperty.refresh1 s f1 rev0 a0).1 ∧
    RevisedProperty.Inv (RevisedProperty.refresh2 s f2 rev0 rev1 a0 a1).1 ∧
    RevisedProperty.Inv (RevisedProperty.refresh3 s f3 rev0 rev1 rev2 a0 a1 a2).1 ∧
    (RevisedProperty.refresh1 s f1 rev0 a0 = (s, 0) ∨
      RevisedProperty.refresh1 s f1 rev0 a0 = (⟨some (rev0 a0), some (f1 a0)⟩, 1)) ∧
    (RevisedProperty.refresh2 s f2 rev0 rev1 a0 a1 = (s, 0) ∨
      RevisedProperty.refresh2 s f2 rev0 rev1 a0 a1 =
        (⟨some (tuple2GetRevision (refGetRevision rev0) (refGetRevision rev1) (a0, a1)),
          some (f2 a0 a1)⟩, 1)) ∧
    (RevisedProperty.refresh3 s f3 rev0 rev1 rev2 a0 a1 a2 = (s, 0) ∨
      RevisedProperty.refresh3 s f3 rev0 rev1 rev2 a0 a1 a2 =
        (⟨some (tuple3GetRevision (refGetRevision rev0) (refGetRevision rev1)
          (refGetRevision rev2) (a0, a1, a2)), some (f3 a0 a1 a2)⟩, 1)) := by
  refine ⟨by simp [RevisedProperty.Inv, RevisedProperty.new], ?_, ?_, ?_, ?_, ?_, ?_⟩
  · unfold RevisedProperty.refresh1
    split
    · simp [RevisedProperty.Inv]
    · exact hs
  · unfold RevisedProperty.refresh2
    split
    · simp [RevisedProperty.Inv]
    · exact hs
  · unfold RevisedProperty.refresh3
    split
    · simp [RevisedProperty.Inv]
    · exact hs
  · unfold RevisedProperty.refresh1
    split
    · exact Or.inr rfl
    · exact Or.inl rfl
  · unfold RevisedProperty.refresh2
    split
    · exact Or.inr rfl
    · exact Or.inl rfl
  · unfold RevisedProperty.refresh3
    split
    · exact Or.inr rfl
    · exact Or.inl rfl

/-- Witness for C7 at a concrete instance. -/
theorem property_revision_value_coupled_witness :
    RevisedProperty.Inv (RevisedProperty.new : RevisedProperty Nat) ∧
    RevisedProperty.Inv (RevisedProperty.refresh1
      (RevisedProperty.new : RevisedProperty Nat) (fun n => n + 1) (fun n => n) 4).1 :=
  have h := property_revision_value_coupled (RevisedProperty.new : RevisedProperty Nat)
    (by simp [RevisedProperty.Inv, RevisedProperty.new])
    (fun n => n + 1) (fun a b => a + b) (fun a b c => a + b + c)
    (fun n : Nat => n) (fun n : Nat => n) (fun n : Nat => n) 4 4 4
  ⟨h.1, h.2.1⟩

/-- Folding the per-entry xor over the entries equals folding it over
the list of (key fingerprint, value fingerprint) pairs. -/
theorem foldl_xor_entries_eq_map {κ α : Type} (rev_k : κ → Nat) (rev_v : α → Nat)
    (entries : List (κ × α)) (i : Nat) :
    entries.foldl (fun acc e => acc ^^^ mapEntryRevision (rev_k e.1) (rev_v e.2)) i =
      (entries.map fun e => (rev_k e.1, rev_v e.2)).foldl
        (fun acc p => acc ^^^ mapEntryRevision p.1 p.2) i := by
  induction entries generalizing i with
  | nil => rfl
  | cons e es ih =>
    simp only [List.foldl_cons, List.map_cons]
    exact ih _

/-- The xor-fold of per-entry sub-fingerprints is invariant under
permutation, because xor is commutative and associative. -/
theorem foldl_xor_perm {l1 l2 : List (Nat × Nat)} (h : l1.Perm l2) (i : Nat) :
    l1.foldl (fun acc p => acc ^^^ mapEntryRevision p.1 p.2) i =
      l2.foldl (fun acc p => acc ^^^ mapEntryRevision p.1 p.2) i := by
  refine h.foldl_eq' ?_ i
  intro x _ y _ z
  rw [Nat.xor_assoc, Nat.xor_assoc, Nat.xor_comm (mapEntryRevision x.1 x.2)]

/-- C4: two maps whose multisets of (key fingerprint, value fingerprint)
pairs coincide — in particular the same pairs inserted in different
orders — produce equal `get_revision` results, because per-entry
sub-fingerprints are combined with xor, a commutative and associative
operator. -/
theorem hashmap_revision_order_independent {κ α : Type} (rev_k : κ → Nat) (rev_v : α → Nat)
    (entries1 entries2 : List (κ × α))
    (hperm : (entries1.map fun e => (rev_k e.1, rev_v e.2)).Perm
      (entries2.map fun e => (rev_k e.1, rev_v e.2))) :
    hashMapGetRevision rev_k rev_v entries1 = hashMapGetRevision rev_k rev_v entries2 := by
  have hlen : entries1.length = entries2.length := by
    have h := hperm.length_eq
    simpa using h
  unfold hashMapGetRevision
  rw [hlen, foldl_xor_entries_eq_map, foldl_xor_entries_eq_map, foldl_xor_perm hperm]

/-- Witness for C4: the maps {1 ↦ 2, 3 ↦ 4} built in the two insertion
orders fingerprint identically. -/
theorem hashmap_revision_order_independent_witness :
    hashMapGetRevision (fun n => n) (fun n => n) [(1, 2), (3, 4)] =
      hashMapGetRevision (fun n => n) (fun n => n) [(3, 4), (1, 2)] :=
  hashmap_revision_order_independent (fun n => n) (fun n => n)
    [(1, 2), (3, 4)] [(3, 4), (1, 2)] (by decide)

/-- `mulP` maps into the `u64` range. -/
theorem mulP_lt (x : Nat) : mulP x < U64 :=
  Nat.mod_lt _ (by decide)

/-- `diffuse` maps into the `u64` range. -/
theorem diffuse_lt (x : Nat) : diffuse x < U64 :=
  mulP_lt _

/-- Xor stays within the `u64` range. -/
theorem xor_lt_U64 {x y : Nat} (hx : x < U64) (hy : y < U64) : x ^^^ y < U64 :=
  @Nat.xor_lt_two_pow x y 64 hx hy

/-- Right shift distributes over xor. -/
theorem shiftRight_xor_distrib (a b n : Nat) : (a ^^^ b) >>> n = a >>> n ^^^ b >>> n := by
  apply Nat.eq_of_testBit_eq
  intro i
  simp [Nat.testBit_shiftRight, Nat.testBit_xor]

/-- Shifting a small number far enough right gives zero. -/
theorem shiftRight_eq_zero {a n : Nat} (h : a < 2 ^ n) : a >>> n = 0 := by
  rw [Nat.shiftRight_eq_div_pow]
  exact Nat.div_eq_of_lt h

/-- The xor-shift correction term of `xshift` fits in 32 bits. -/
theorem shiftTerm_lt {x : Nat} (hx : x < U64) : (x >>> 32) >>> (x >>> 60) < 2 ^ 32 := by
  have h1 : x >>> 32 < 2 ^ 32 := by
    rw [Nat.shiftRight_eq_div_pow]
    rw [Nat.div_lt_iff_lt_mul (by norm_num)]
    calc x < U64 := hx
      _ = 2 ^ 32 * 2 ^ 32 := by norm_num [U64]
  calc (x >>> 32) >>> (x >>> 60) ≤ x >>> 32 := by
        rw [Nat.shiftRight_eq_div_pow]
        exact Nat.div_le_self _ _
    _ < 2 ^ 32 := h1

/-- `xshift` stays within the `u64` range. -/
theorem xshift_lt {x : Nat} (hx : x < U64) : xshift x < U64 :=
  xor_lt_U64 hx (lt_trans (shiftTerm_lt hx) (by norm_num [U64]))

/-- The xor-shift step of `diffuse` is an involution on `u64`. -/
theorem xshift_xshift {x : Nat} (hx : x < U64) : xshift (xshift x) = x := by
  have hs32 : (x >>> 32) >>> (x >>> 60) < 2 ^ 32 := shiftTerm_lt hx
  have hs60 : (x >>> 32) >>> (x >>> 60) < 2 ^ 60 := lt_trans hs32 (by norm_num)
  have h32 : xshift x >>> 32 = x >>> 32 := by
    have h : xshift x >>> 32 = (x ^^^ ((x >>> 32) >>> (x >>> 60))) >>> 32 := rfl
    rw [h, shiftRight_xor_distrib, shiftRight_eq_zero hs32, Nat.xor_zero]
  have h60 : xshift x >>> 60 = x >>> 60 := by
    have h : xshift x >>> 60 = (x ^^^ ((x >>> 32) >>> (x >>> 60))) >>> 60 := rfl
    rw [h, shiftRight_xor_distrib, shiftRight_eq_zero hs60, Nat.xor_zero]
  calc xshift (xshift x)
      = xshift x ^^^ ((xshift x >>> 32) >>> (xshift x >>> 60)) := rfl
    _ = xshift x ^^^ ((x >>> 32) >>> (x >>> 60)) := by rw [h32, h60]
    _ = x := by
        have h : xshift x ^^^ ((x >>> 32) >>> (x >>> 60)) =
            (x ^^^ ((x >>> 32) >>> (x >>> 60))) ^^^ ((x >>> 32) >>> (x >>> 60)) := rfl
        rw [h, Nat.xor_assoc, Nat.xor_self, Nat.xor_zero]

/-- Wrapping multiplication by the odd constant `seaP` is injective on
the `u64` range. -/
theorem mulP_inj {a b : Nat} (ha : a < U64) (hb : b < U64) (h : mulP a = mulP b) : a = b := by
  have hpinv : seaP * seaPinv % U64 = 1 % U64 := by decide
  have h1 : a * seaP ≡ b * seaP [MOD U64] := h
  have h2 : a * seaP * seaPinv ≡ b * seaP * seaPinv [MOD U64] := h1.mul_right seaPinv
  have ha2 : a * seaP * seaPinv ≡ a [MOD U64] := by
    have h3 : a * (seaP * seaPinv) ≡ a * 1 [MOD U64] := Nat.ModEq.mul_left a hpinv
    simpa [mul_assoc] using h3
  have hb2 : b * seaP * seaPinv ≡ b [MOD U64] := by
    have h3 : b * (seaP * seaPinv) ≡ b * 1 [MOD U64] := Nat.ModEq.mul_left b hpinv
    simpa [mul_assoc] using h3
  have hfinal : a ≡ b [MOD U64] := (ha2.symm.trans h2).trans hb2
  have hmod : a % U64 = b % U64 := hfinal
  rwa [Nat.mod_eq_of_lt ha, Nat.mod_eq_of_lt hb] at hmod

/-- `diffuse` is injective on the `u64` range. -/
theorem diffuse_inj {a b : Nat} (ha : a < U64) (hb : b < U64) (h : diffuse a = diffuse b) :
    a = b := by
  have h1 : xshift (mulP a) = xshift (mulP b) :=
    mulP_inj (xshift_lt (mulP_lt a)) (xshift_lt (mulP_lt b)) h
  have h2 : mulP a = mulP b := by
    have h3 := congrArg xshift h1
    rwa [xshift_xshift (mulP_lt a), xshift_xshift (mulP_lt b)] at h3
  exact mulP_inj ha hb h2

/-- Xor by a fixed value on the left is cancellable. -/
theorem xor_left_cancel (a : Nat) {x y : Nat} (h : a ^^^ x = a ^^^ y) : x = y := by
  have h2 := congrArg (fun z => a ^^^ z) h
  simpa [← Nat.xor_assoc, Nat.xor_self, Nat.zero_xor] using h2

/-- Xor by a fixed value on the right is cancellable. -/
theorem xor_right_cancel (a : Nat) {x y : Nat} (h : x ^^^ a = y ^^^ a) : x = y := by
  apply xor_left_cancel a
  rw [Nat.xor_comm a x, Nat.xor_comm a y]
  exact h

/-- Writing eight bytes to a hasher with an empty buffer pushes them as
one little-endian word. -/
theorem write_eight (s : SeaHasher) (hs : s.tl = []) (b1 b2 b3 b4 b5 b6 b7 b8 : Nat) :
    s.write [b1, b2, b3, b4, b5, b6, b7, b8] =
      s.push (u64FromLEBytes [b1, b2, b3, b4, b5, b6, b7, b8]) := by
  obtain ⟨a, b, c, d, w, tl⟩ := s
  have hs2 : tl = [] := hs
  subst hs2
  simp only [SeaHasher.write, List.foldl_cons, List.foldl_nil, SeaHasher.writeByte,
    List.nil_append, List.cons_append, List.length_cons, List.length_nil]
  norm_num

/-- Recomposing the little-endian bytes of `x` gives `x` reduced
modulo 2^64. -/
theorem u64FromLEBytes_leBytes64 (x : Nat) : u64FromLEBytes (leBytes64 x) = x % U64 := by
  show x % 256 + 256 * (x / 2 ^ 8 % 256 + 256 * (x / 2 ^ 16 % 256 + 256 * (x / 2 ^ 24 % 256 +
    256 * (x / 2 ^ 32 % 256 + 256 * (x / 2 ^ 40 % 256 + 256 * (x / 2 ^ 48 % 256 +
    256 * (x / 2 ^ 56 % 256 + 256 * 0))))))) = x % U64
  have h : U64 = 18446744073709551616 := by norm_num [U64]
  rw [h]
  omega

/-- `write_u64` on a hasher with an empty buffer is a single push of the
value reduced modulo 2^64. -/
theorem write_u64_nil (s : SeaHasher) (hs : s.tl = []) (x : Nat) :
    s.write_u64 x = s.push (x % U64) := by
  have h := write_eight s hs (x % 256) (x / 2 ^ 8 % 256) (x / 2 ^ 16 % 256) (x / 2 ^ 24 % 256)
    (x / 2 ^ 32 % 256) (x / 2 ^ 40 % 256) (x / 2 ^ 48 % 256) (x / 2 ^ 56 % 256)
  calc s.write_u64 x = s.push (u64FromLEBytes (leBytes64 x)) := h
    _ = s.push (x % U64) := by rw [u64FromLEBytes_leBytes64]

/-- `finish` of a hasher with an empty buffer. -/
theorem finish_nil (a b c d w : Nat) :
    SeaHasher.finish ⟨a, b, c, d, w, []⟩ =
      diffuse ((((a ^^^ b) ^^^ c) ^^^ d) ^^^ (w % U64)) := rfl

/-- The revision of a one-element slice, unfolded to its diffuse/xor
normal form (the seeds are the fixed SeaHasher defaults). -/
theorem sliceOne_eq (r : Nat) (hr : r < U64) :
    sliceOneRevision r =
      diffuse ((((0x6fe2e5aaf078ebc9 ^^^ 0x14f994a4c5259381) ^^^
        2334272089803256423) ^^^ diffuse (0xb480a793d8e6c86c ^^^ r)) ^^^ 16) := by
  have hA : RevisionHasher.new.write_usize 1 =
      ⟨⟨0xb480a793d8e6c86c, 0x6fe2e5aaf078ebc9, 0x14f994a4c5259381,
        2334272089803256423, 8, []⟩⟩ := by decide
  have hstate : (RevisionHasher.new.write_usize 1).write_revision r =
      ⟨⟨0x6fe2e5aaf078ebc9, 0x14f994a4c5259381, 2334272089803256423,
        diffuse (0xb480a793d8e6c86c ^^^ r), 16, []⟩⟩ := by
    rw [hA]
    have h0 : RevisionHasher.write_revision ⟨⟨0xb480a793d8e6c86c, 0x6fe2e5aaf078ebc9,
        0x14f994a4c5259381, 2334272089803256423, 8, []⟩⟩ r =
        ⟨SeaHasher.write_u64 ⟨0xb480a793d8e6c86c, 0x6fe2e5aaf078ebc9, 0x14f994a4c5259381,
          2334272089803256423, 8, []⟩ r⟩ := rfl
    rw [h0, write_u64_nil ⟨0xb480a793d8e6c86c, 0x6fe2e5aaf078ebc9, 0x14f994a4c5259381,
      2334272089803256423, 8, []⟩ rfl r, Nat.mod_eq_of_lt hr]
    rfl
  have h1 : sliceOneRevision r =
      ((RevisionHasher.new.write_usize 1).write_revision r).finish := rfl
  rw [h1, hstate]
  have h2 : RevisionHasher.finish ⟨⟨0x6fe2e5aaf078ebc9, 0x14f994a4c5259381,
      2334272089803256423, diffuse (0xb480a793d8e6c86c ^^^ r), 16, []⟩⟩ =
      SeaHasher.finish ⟨0x6fe2e5aaf078ebc9, 0x14f994a4c5259381,
        2334272089803256423, diffuse (0xb480a793d8e6c86c ^^^ r), 16, []⟩ := rfl
  rw [h2, finish_nil]
  have h4 : (16 : Nat) % U64 = 16 := by decide
  rw [h4]

/-- The digest of a one-element slice determines the element's
fingerprint: the map is a bijection on `u64`. -/
theorem sliceOne_inj {r r' : Nat} (hr : r < U64) (hr' : r' < U64)
    (h : sliceOneRevision r = sliceOneRevision r') : r = r' := by
  rw [sliceOne_eq r hr, sliceOne_eq r' hr'] at h
  have hK : ((0x6fe2e5aaf078ebc9 ^^^ 0x14f994a4c5259381) ^^^
      2334272089803256423 : Nat) < U64 := by decide
  have h1 := diffuse_inj (xor_lt_U64 (xor_lt_U64 hK (diffuse_lt _)) (by decide))
    (xor_lt_U64 (xor_lt_U64 hK (diffuse_lt _)) (by decide)) h
  have h2 := xor_right_cancel 16 h1
  have h3 := xor_left_cancel _ h2
  have h4 := diffuse_inj (xor_lt_U64 (by decide) hr) (xor_lt_U64 (by decide) hr') h3
  exact xor_left_cancel _ h4

/-- C8 counterexample: the claim that the fingerprints of `[]` and of a
one-element slice `[x]` are never equal fails — with the fixed seahash
seeds there is exactly one element fingerprint for which they collide,
namely 9071949929130530562. -/
theorem empty_one_slice_collision :
    sliceGetRevision (fun r => r) [9071949929130530562] =
      sliceGetRevision (fun r => r) ([] : List Nat) := by
  decide

/-- C8 amended: the element count is written into the accumulator before
the elements, and the digests of `[]` and `[x]` coincide exactly when
the element's fingerprint is the single colliding value
9071949929130530562; for every other element fingerprint the two
digests differ. -/
theorem slice_empty_vs_one_revision {α : Type} (rev : α → Nat) (x : α) (hx : rev x < U64) :
    (sliceGetRevision rev [x] = sliceGetRevision rev [] ↔
      rev x = 9071949929130530562) := by
  have h1 : sliceGetRevision rev [x] = sliceOneRevision (rev x) := rfl
  have h2 : sliceGetRevision rev [] = sliceOneRevision 9071949929130530562 := by
    have h0 : sliceGetRevision rev [] = (RevisionHasher.new.write_usize 0).finish := rfl
    rw [h0]
    decide
  rw [h1, h2]
  constructor
  · intro h
    exact sliceOne_inj hx (by decide) h
  · intro h
    rw [h]

/-- Witness for the amended C8: the fingerprint 5 is not the colliding
value, so `[]` and a slice of one element with fingerprint 5 hash
differently. -/
theorem slice_empty_vs_one_revision_witness :
    (5 : Nat) < U64 ∧
    (sliceGetRevision (fun r => r) [(5 : Nat)] = sliceGetRevision (fun r => r) [] ↔
      (5 : Nat) = 9071949929130530562) :=
  ⟨by decide, slice_empty_vs_one_revision (fun r => r) 5 (by decide)⟩

end Hashrevise
